import Mathlib

/-!
Verification development for the taskflow core: the graph-flow pattern
(src/taskflow/patterns/graph_flow.py) and the result storage
(src/taskflow/storage.py), shallowly embedded as executable Lean
definitions, with the specified invariants and scenarios settled as
theorems.
-/

namespace Taskflow

/-! ### Graph-flow data model

A graph node (task or subflow) as `Flow.add` reads it: a `name`, the set
of symbols it `requires` and the set it `provides` (Python sets, embedded
as lists of strings).  Nodes are distinguished by identity in the source;
`id` gives each embedded node a stable identity. -/

structure Item where
  id : Nat
  name : String
  requires : List String
  provides : List String
deriving DecidableEq, Repr

/-- The directed graph held by a graph flow (networkx `DiGraph`): node
list in insertion order and directed edge list. -/
structure Graph where
  nodes : List Item
  edges : List (Item × Item)
deriving DecidableEq, Repr

def Graph.empty : Graph := ⟨[], []⟩

def Graph.hasNode (g : Graph) (u : Item) : Bool :=
  g.nodes.contains u

/-- networkx `add_node`: no-op when the node is already present. -/
def Graph.addNode (g : Graph) (u : Item) : Graph :=
  if g.hasNode u then g else { g with nodes := g.nodes ++ [u] }

def Graph.hasEdge (g : Graph) (u v : Item) : Bool :=
  g.edges.contains (u, v)

/-- networkx `add_edge`: inserts missing endpoints, then the edge unless
it is already present. -/
def Graph.addEdge (g : Graph) (u v : Item) : Graph :=
  let g1 := (g.addNode u).addNode v
  if g1.hasEdge u v then g1 else { g1 with edges := g1.edges ++ [(u, v)] }

/-- networkx `remove_edge`. -/
def Graph.removeEdge (g : Graph) (u v : Item) : Graph :=
  { g with edges := g.edges.filter (fun e => e ≠ (u, v)) }

/-- Does edge `e` avoid every node in `items`? -/
def edgeUntouched (items : List Item) (e : Item × Item) : Bool :=
  !(items.contains e.1) && !(items.contains e.2)

/-- Is node `n` outside `items`? -/
def nodeUntouched (items : List Item) (n : Item) : Bool :=
  !(items.contains n)

/-- networkx `remove_nodes_from`: drops the nodes and all incident
edges; absent nodes are ignored. -/
def Graph.removeNodesFrom (g : Graph) (items : List Item) : Graph :=
  { nodes := g.nodes.filter (nodeUntouched items),
    edges := g.edges.filter (edgeUntouched items) }

/-! ### Acyclicity check

`dag.is_directed_acyclic_graph` from networkx, embedded as a Kahn-style
elimination: repeatedly remove all in-degree-zero nodes; the graph is a
DAG iff everything gets removed.  `fuel = nodes.length` rounds suffice
because each successful round removes at least one node. -/

def indeg (edges : List (Item × Item)) (v : Item) : Nat :=
  (edges.filter (fun e => e.2 = v)).length

def Graph.sources (g : Graph) : List Item :=
  g.nodes.filter (fun v => indeg g.edges v = 0)

def isDagFuel : Nat → Graph → Bool
  | 0, g => g.nodes.isEmpty
  | n + 1, g =>
    if g.nodes.isEmpty then true
    else
      let s := g.sources
      if s.isEmpty then false
      else isDagFuel n (g.removeNodesFrom s)

def isDag (g : Graph) : Bool :=
  isDagFuel g.nodes.length g

/-! ### Errors

The exception kinds raised by the embedded code: `exceptions.NotFound`,
`exc.DependencyFailure`, and plain `ValueError` (the spec's *argument*
kind, raised by `Flow.link` on absent endpoints). -/

inductive Err where
  | notFound (msg : String)
  | dependency (msg : String)
  | valueError (msg : String)
deriving DecidableEq, Repr

def Err.isNotFound : Err → Bool
  | .notFound _ => true
  | _ => false

/-! ### Flow.link

On failure the graph still ends in a definite state (the source mutates
`self._graph` before raising), so errors carry the post-call graph. -/

/-- `Flow.link(u, v)`: endpoint checks, edge insertion, then the
acyclicity check; on a cycle the edge is removed again and a
`DependencyFailure` is raised. -/
def linkOp (g : Graph) (u v : Item) : Except (Err × Graph) Graph :=
  if ¬ g.hasNode u then
    .error (.valueError ("Item " ++ u.name ++ " not found to link from"), g)
  else if ¬ g.hasNode v then
    .error (.valueError ("Item " ++ v.name ++ " not found to link to"), g)
  else
    let g2 := g.addEdge u v
    if isDag g2 then .ok g2
    else
      .error (.dependency ("No path through the items in the graph produces"
        ++ " an ordering that will allow for correct dependency resolution"),
        g2.removeEdge u v)

/-! ### Flow.add

`provided` is the map symbol → unique producer, `requirements` the map
symbol → list of consumers, both first built from the current graph and
then extended item by item, as in the source. -/

abbrev PMap := String → Option Item

abbrev RMap := String → List Item

/-- `update_requirements(node)`: append `node` under each symbol it
requires. -/
def updateReqs (r : RMap) (node : Item) : RMap :=
  fun s => if node.requires.contains s then r s ++ [node] else r s

/-- Record a node as producer of each symbol it provides (later nodes
overwrite, as repeated dict assignment does). -/
def recordAll (p : PMap) (node : Item) : PMap :=
  fun s => if node.provides.contains s then some node else p s

/-- The pre-scan `for node in self: ...` building both maps from the
current graph. -/
def scanNode (pr : PMap × RMap) (n : Item) : PMap × RMap :=
  (recordAll pr.1 n, updateReqs pr.2 n)

/-- The duplicate-producer loop: for each symbol `item` provides, fail
with a `DependencyFailure` naming both producers and the symbol if a
producer already exists, else record `item` as the producer. -/
def recordProvides (item : Item) : PMap → List String → Except Err PMap
  | p, [] => .ok p
  | p, v :: rest =>
    match p v with
    | some other =>
      .error (.dependency (item.name ++ " provides " ++ v
        ++ " but is already being provided by " ++ other.name
        ++ " and duplicate producers are disallowed"))
    | none => recordProvides item (fun s => if s = v then some item else p s) rest

/-- For each symbol `item` requires: if a producer exists, link
producer → item. -/
def linkRequiresLoop (p : PMap) (item : Item) :
    Graph → List String → Except (Err × Graph) Graph
  | g, [] => .ok g
  | g, v :: rest =>
    match p v with
    | some producer =>
      match linkOp g producer item with
      | .ok g' => linkRequiresLoop p item g' rest
      | .error eg => .error eg
    | none => linkRequiresLoop p item g rest

/-- Link `item` to each consumer in the given list. -/
def linkConsumersLoop (item : Item) :
    Graph → List Item → Except (Err × Graph) Graph
  | g, [] => .ok g
  | g, c :: rest =>
    match linkOp g item c with
    | .ok g' => linkConsumersLoop item g' rest
    | .error eg => .error eg

/-- For each symbol `item` provides: link `item` to every earlier
consumer of that symbol. -/
def linkProvidesLoop (r : RMap) (item : Item) :
    Graph → List String → Except (Err × Graph) Graph
  | g, [] => .ok g
  | g, v :: rest =>
    match linkConsumersLoop item g (r v) with
    | .ok g' => linkProvidesLoop r item g' rest
    | .error eg => .error eg

/-- The accumulated state threaded through the `for item in items` loop
of `Flow.add`. -/
structure AddState where
  g : Graph
  p : PMap
  r : RMap

/-- One iteration of the item loop: insert the node, merge its
requirements, check/record its provides, then derive edges. -/
def processItem (st : AddState) (item : Item) : Except (Err × Graph) AddState :=
  let g1 := st.g.addNode item
  let r1 := updateReqs st.r item
  match recordProvides item st.p item.provides with
  | .error e => .error (e, g1)
  | .ok p1 =>
    match linkRequiresLoop p1 item g1 item.requires with
    | .error eg => .error eg
    | .ok g2 =>
      match linkProvidesLoop r1 item g2 item.provides with
      | .error eg => .error eg
      | .ok g3 => .ok ⟨g3, p1, r1⟩

def processItems : AddState → List Item → Except (Err × Graph) Graph
  | st, [] => .ok st.g
  | st, item :: rest =>
    match processItem st item with
    | .error eg => .error eg
    | .ok st' => processItems st' rest

/-- `Flow.add(*items)`: pre-scan the current graph, run the item loop,
and on any exception remove all given items from the graph before
re-raising (the `except` clause). -/
def addOp (g : Graph) (items : List Item) : Except (Err × Graph) Graph :=
  let pr := g.nodes.foldl scanNode (fun _ => none, fun _ => [])
  match processItems ⟨g, pr.1, pr.2⟩ items with
  | .ok g' => .ok g'
  | .error (e, gf) => .error (e, gf.removeNodesFrom items)

/-! ### Call sequences on a graph flow -/

inductive Op where
  | addItems (items : List Item)
  | linkItems (u v : Item)

/-- The graph after one call, whether it succeeded or raised (a raising
call still leaves the flow's graph in its post-rollback state). -/
def applyOp (g : Graph) : Op → Graph
  | .addItems items =>
    match addOp g items with
    | .ok g' => g'
    | .error (_, gf) => gf
  | .linkItems u v =>
    match linkOp g u v with
    | .ok g' => g'
    | .error (_, gf) => gf

/-- Did the call return successfully? -/
def opOk (g : Graph) : Op → Bool
  | .addItems items => (addOp g items).toBool
  | .linkItems u v => (linkOp g u v).toBool

/-- The graph of a fresh flow after a sequence of `add`/`link` calls. -/
def runOps (ops : List Op) : Graph :=
  ops.foldl applyOp Graph.empty

/-! ### Storage data model (src/taskflow/storage.py)

Task states; Storage only distinguishes `PENDING` as initial and the
results-bearing set `STATES_WITH_RESULTS`. -/

inductive TState where
  | PENDING
  | RUNNING
  | SUCCESS
  | FAILURE
  | REVERTING
  | REVERTED
deriving DecidableEq, Repr

def STATES_WITH_RESULTS : List TState :=
  [.SUCCESS, .REVERTING, .FAILURE]

/-- Python result payloads, as the storage subscripting discipline sees
them: `None`, integers, strings, lists, string-keyed dicts, and the
tagged `misc.Failure` wrapper. -/
inductive Value where
  | vnone
  | vint (n : Int)
  | vstr (s : String)
  | vlist (xs : List Value)
  | vmap (kvs : List (String × Value))
  | vfail (msg : String)
deriving Repr

def Value.isFailure : Value → Bool
  | .vfail _ => true
  | _ => false

/-- A result-mapping index: `None` (whole result), a position, or a
mapping key. -/
inductive Index where
  | whole
  | pos (i : Int)
  | key (k : String)
deriving DecidableEq, Repr

/-- Python list subscripting: non-negative positions from the front,
negative positions from the back, out of range is an `IndexError`. -/
def pyListGet (xs : List Value) (i : Int) : Option Value :=
  let j := if i < 0 then i + xs.length else i
  if 0 ≤ j then xs.get? j.toNat else none

/-- Python dict subscripting by string key (`KeyError` when absent). -/
def mapGet (kvs : List (String × Value)) (k : String) : Option Value :=
  (kvs.find? (fun p => p.1 = k)).map (fun p => p.2)

/-- `_item_from_result(result, index, name)`: `None` index returns the
whole result; otherwise `result[index]`, any subscripting failure
(IndexError, KeyError, TypeError, ValueError) becoming `NotFound`. -/
def itemFromResult (result : Value) (index : Index) (name : String) :
    Except Err Value :=
  let miss : Except Err Value := .error (.notFound ("Unable to find result " ++ name))
  match index with
  | .whole => .ok result
  | .pos i =>
    match result with
    | .vlist xs =>
      match pyListGet xs i with
      | some v => .ok v
      | none => miss
    | .vstr st =>
      match pyListGet (st.data.map (fun c => Value.vstr (String.mk [c]))) i with
      | some v => .ok v
      | none => miss
    | _ => miss
  | .key k =>
    match result with
    | .vmap kvs =>
      match mapGet kvs k with
      | some v => .ok v
      | none => miss
    | _ => miss

/-- logbook.TaskDetail, modelled from the spec: `uuid`, `name`, `state`,
and `results` (absent until assigned by `save`; `reset` clears it). -/
structure TaskDetail where
  uuid : String
  name : String
  state : TState
  results : Option Value
deriving Repr

/-- Storage state: the Flow Detail's ordered Task Details (lookup by
uuid/name is first-match, modelled from the spec since logbook is not
part of this repository), `_result_mappings` and `_reverse_mapping` as
ordered association lists.  No backend is configured, so
`_with_connection` persistence steps are skipped, as the source does
when `backend is None`. -/
structure Storage where
  flowdetail : List TaskDetail
  resultMappings : List (String × List (String × Index))
  reverseMapping : List (String × List (String × Index))
deriving Repr

def Storage.empty : Storage := ⟨[], [], []⟩

def injectorName : String := "_TaskFlow_INJECTOR"

/-- `flow_detail.find(uuid)`: first Task Detail with the uuid. -/
def Storage.find (s : Storage) (uuid : String) : Option TaskDetail :=
  s.flowdetail.find? (fun td => td.uuid = uuid)

/-- Replace the first Task Detail with the given uuid (in-place mutation
of the found detail in the source). -/
def replaceFirst (l : List TaskDetail) (uuid : String) (td' : TaskDetail) :
    List TaskDetail :=
  match l with
  | [] => []
  | td :: rest =>
    if td.uuid = uuid then td' :: rest else td :: replaceFirst rest uuid td'

/-- Association-list lookup for the mapping tables. -/
def alGet {α : Type} (l : List (String × α)) (k : String) : Option α :=
  (l.find? (fun p => p.1 = k)).map (fun p => p.2)

/-- `setdefault(name, []).append(entry)` on `_reverse_mapping`. -/
def alAppend (l : List (String × List (String × Index))) (k : String)
    (entry : String × Index) : List (String × List (String × Index)) :=
  match l with
  | [] => [(k, [entry])]
  | (k', v) :: rest =>
    if k' = k then (k', v ++ [entry]) :: rest else (k', v) :: alAppend rest k entry

/-- `_result_mappings[uuid] = mapping` (overwrite-or-insert). -/
def alSet (l : List (String × List (String × Index))) (k : String)
    (v : List (String × Index)) : List (String × List (String × Index)) :=
  match l with
  | [] => [(k, v)]
  | (k', v') :: rest =>
    if k' = k then (k', v) :: rest else (k', v') :: alSet rest k v

/-! ### Storage operations -/

/-- `add_task(uuid, task_name)`: a new `PENDING` Task Detail appended to
the Flow Detail (uuid/name uniqueness is not checked, per the source's
to-do). -/
def Storage.addTask (s : Storage) (uuid taskName : String) : Storage :=
  { s with flowdetail := s.flowdetail ++ [⟨uuid, taskName, .PENDING, none⟩] }

def Storage.taskdetailByUuid (s : Storage) (uuid : String) :
    Except Err TaskDetail :=
  match s.find uuid with
  | some td => .ok td
  | none => .error (.notFound ("Unknown task: " ++ uuid))

/-- `set_task_state(uuid, state)`. -/
def Storage.setTaskState (s : Storage) (uuid : String) (st : TState) :
    Except Err Storage :=
  match s.find uuid with
  | none => .error (.notFound ("Unknown task: " ++ uuid))
  | some td =>
    .ok { s with flowdetail := replaceFirst s.flowdetail uuid { td with state := st } }

/-- `get_task_state(uuid)`. -/
def Storage.getTaskState (s : Storage) (uuid : String) : Except Err TState :=
  (s.taskdetailByUuid uuid).map (fun td => td.state)

/-- `_check_all_results_provided(uuid, task_name, data)`: the names in
this task's result mapping whose index cannot be extracted from `data`;
each produces a log warning (returned here as the list of warned
names), never an error. -/
def Storage.checkAllResultsProvided (s : Storage) (uuid : String)
    (data : Value) : List String :=
  match alGet s.resultMappings uuid with
  | none => []
  | some mapping =>
    mapping.filterMap (fun nameIndex =>
      match itemFromResult data nameIndex.2 nameIndex.1 with
      | .ok _ => none
      | .error _ => some nameIndex.1)

/-- `save(uuid, data, state=SUCCESS)`: store `data` as the task's
results, set the state, and (when `data` is not a `Failure`) run the
completeness check; the warning names it logs are returned alongside
the new state. -/
def Storage.save (s : Storage) (uuid : String) (data : Value)
    (st : TState := .SUCCESS) : Except Err (Storage × List String) :=
  match s.find uuid with
  | none => .error (.notFound ("Unknown task: " ++ uuid))
  | some td =>
    let s' := { s with
      flowdetail := replaceFirst s.flowdetail uuid
        { td with state := st, results := some data } }
    let warns := if data.isFailure then []
      else s.checkAllResultsProvided uuid data
    .ok (s', warns)

/-- `get(uuid)`: the task's results iff its state is results-bearing,
else `NotFound`.  An unassigned `results` field reads as Python
`None`. -/
def Storage.get (s : Storage) (uuid : String) : Except Err Value :=
  match s.find uuid with
  | none => .error (.notFound ("Unknown task: " ++ uuid))
  | some td =>
    if STATES_WITH_RESULTS.contains td.state then
      .ok (td.results.getD .vnone)
    else
      .error (.notFound ("Result for task " ++ uuid ++ " is not known"))

/-- `reset(uuid, state=PENDING)`: clear results, set the state. -/
def Storage.reset (s : Storage) (uuid : String) (st : TState := .PENDING) :
    Except Err Storage :=
  match s.find uuid with
  | none => .error (.notFound ("Unknown task: " ++ uuid))
  | some td =>
    let td' := { td with state := st, results := none }
    .ok { s with flowdetail := replaceFirst s.flowdetail uuid td' }

/-- `inject(pairs)`: add a synthetic injector task (uuid supplied by the
injected UUID source), save `pairs` as its result, and append
`(injector_uuid, key)` under each key of `pairs` in the reverse
mapping. -/
def Storage.inject (s : Storage) (injUuid : String)
    (pairs : List (String × Value)) : Except Err Storage :=
  let s1 := s.addTask injUuid injectorName
  match s1.save injUuid (.vmap pairs) .SUCCESS with
  | .error e => .error e
  | .ok (s2, _) =>
    .ok { s2 with
      reverseMapping := pairs.foldl
        (fun rm pair => alAppend rm pair.1 (injUuid, .key pair.1))
        s2.reverseMapping }

/-- `set_result_mapping(uuid, mapping)`: no-op on an empty mapping;
otherwise store the mapping and append `(uuid, index)` under each name
in the reverse mapping. -/
def Storage.setResultMapping (s : Storage) (uuid : String)
    (mapping : List (String × Index)) : Storage :=
  if mapping.isEmpty then s
  else
    { s with
      resultMappings := alSet s.resultMappings uuid mapping,
      reverseMapping := mapping.foldl
        (fun rm nameIndex => alAppend rm nameIndex.1 (uuid, nameIndex.2))
        s.reverseMapping }

/-- The candidate loop of `fetch`: return the first entry whose `get`
and `_item_from_result` both succeed; every raised `NotFound` is
swallowed and the walk continues. -/
def fetchLoop (s : Storage) (name : String) :
    List (String × Index) → Except Err Value
  | [] => .error (.notFound ("Unable to find result " ++ name))
  | (uuid, index) :: rest =>
    match s.get uuid with
    | .error _ => fetchLoop s name rest
    | .ok result =>
      match itemFromResult result index name with
      | .ok v => .ok v
      | .error _ => fetchLoop s name rest

/-- `fetch(name)`: `NotFound` when the name is not mapped, else the
candidate walk over the reverse-mapping entries in registration
order. -/
def Storage.fetch (s : Storage) (name : String) : Except Err Value :=
  match alGet s.reverseMapping name with
  | none => .error (.notFound ("Name " ++ name ++ " is not mapped"))
  | some entries => fetchLoop s name entries

/-! ### Storage call sequences

The operations the claimed invariants quantify over; a call that raises
leaves the storage unchanged (the source raises before mutating). -/

inductive SOp where
  | addTask (uuid taskName : String)
  | setTaskState (uuid : String) (st : TState)
  | save (uuid : String) (data : Value) (st : TState)
  | reset (uuid : String) (st : TState)
  | inject (uuid : String) (pairs : List (String × Value))
  | setResultMapping (uuid : String) (mapping : List (String × Index))

def applySOp (s : Storage) : SOp → Storage
  | .addTask u n => s.addTask u n
  | .setTaskState u st =>
    match s.setTaskState u st with
    | .ok s' => s'
    | .error _ => s
  | .save u data st =>
    match s.save u data st with
    | .ok (s', _) => s'
    | .error _ => s
  | .reset u st =>
    match s.reset u st with
    | .ok s' => s'
    | .error _ => s
  | .inject u pairs =>
    match s.inject u pairs with
    | .ok s' => s'
    | .error _ => s
  | .setResultMapping u m => s.setResultMapping u m

def runSOps (ops : List SOp) : Storage :=
  ops.foldl applySOp Storage.empty

/-! ### Specified properties of the graph flow -/

/-- Well-formedness of the embedded graph: every edge endpoint is a
node.  All networkx mutators maintain this. -/
def WF (g : Graph) : Prop :=
  ∀ e ∈ g.edges, e.1 ∈ g.nodes ∧ e.2 ∈ g.nodes

/-- The edge relation of the graph. -/
def EdgeStep (g : Graph) (u v : Item) : Prop :=
  (u, v) ∈ g.edges

/-- Acyclicity: no node reaches itself through a nonempty directed
path. -/
def Acyclic (g : Graph) : Prop :=
  ∀ v, ¬ Relation.TransGen (EdgeStep g) v v

/-- A topological ranking: every edge strictly increases the rank. -/
def Ranked (g : Graph) : Prop :=
  ∃ rank : Item → Nat, ∀ e ∈ g.edges, rank e.1 < rank e.2

/-- No two nodes in the list share a symbol in `provides`. -/
def UniqueProviderL (l : List Item) : Prop :=
  ∀ a ∈ l, ∀ b ∈ l, ∀ s, a.provides.contains s = true →
    b.provides.contains s = true → a = b

/-- The unique-producer invariant of a graph flow. -/
def UniqueProvider (g : Graph) : Prop :=
  UniqueProviderL g.nodes

/-- Consistency of a producer map with a node list: `p` maps a symbol to
a node exactly when that node is in the list and provides the symbol. -/
def MC (nodes : List Item) (p : PMap) : Prop :=
  (∀ s n, p s = some n → n ∈ nodes ∧ n.provides.contains s = true) ∧
  (∀ n, n ∈ nodes → ∀ s, n.provides.contains s = true → p s = some n)

/-! ### Specified properties of the storage -/

/-- The spec's reading of one reverse-mapping entry: the value it
yields when its task is currently in a results-bearing state and its
index resolves against that task's result, else nothing. -/
def entryValue (s : Storage) (name : String) (e : String × Index) :
    Option Value :=
  match s.find e.1 with
  | none => none
  | some td =>
    if STATES_WITH_RESULTS.contains td.state then
      match itemFromResult (td.results.getD .vnone) e.2 name with
      | .ok v => some v
      | .error _ => none
    else none

/-- The earliest entry that yields a value. -/
def firstValue (s : Storage) (name : String) :
    List (String × Index) → Option Value
  | [] => none
  | e :: rest =>
    match entryValue s name e with
    | some v => some v
    | none => firstValue s name rest

/-- `fetch` as the spec words it: the value from the earliest-registered
entry whose task is in a results-bearing state and whose index
resolves; not-found when the name is unmapped or no entry yields a
value. -/
def fetchSpec (s : Storage) (name : String) : Except Err Value :=
  match alGet s.reverseMapping name with
  | none => .error (.notFound ("Name " ++ name ++ " is not mapped"))
  | some entries =>
    match firstValue s name entries with
    | some v => .ok v
    | none => .error (.notFound ("Unable to find result " ++ name))

/-- The state/result coupling of one Task Detail: a results-bearing
state implies `results` has been assigned. -/
def resultsBound (td : TaskDetail) : Bool :=
  !(STATES_WITH_RESULTS.contains td.state) || td.results.isSome

/-- The state/result coupling over a whole Storage. -/
def ResultsInv (s : Storage) : Bool :=
  s.flowdetail.all resultsBound

/-- Storage calls that never install a results-bearing state without
also assigning `results`: `set_task_state` and `reset` restricted to
non-results states (the other operations are unrestricted). -/
def benignSOp : SOp → Bool
  | .setTaskState _ st => !(STATES_WITH_RESULTS.contains st)
  | .reset _ st => !(STATES_WITH_RESULTS.contains st)
  | _ => true

/-! ### Concrete scenario data -/

def itemA : Item := ⟨0, "A", [], ["x"]⟩

def itemB : Item := ⟨1, "B", ["x"], []⟩

def itemC : Item := ⟨2, "C", [], ["x"]⟩

/-- Extract the success value of a call known to succeed. -/
def exD {α : Type} (x : Except Err α) (d : α) : α :=
  x.toOption.getD d

/-- The storage of scenario 6: one task, result mapping `a → 0`,
`b → 5`, before the save. -/
def sMapped : Storage :=
  (Storage.empty.addTask "u" "t").setResultMapping "u"
    [("a", .pos 0), ("b", .pos 5)]

/-- The storage after a task saved a `Failure` as its `FAILURE`-state
result under whole-result name `r`. -/
def sFailed : Storage :=
  (exD (((Storage.empty.addTask "u" "t").setResultMapping "u"
    [("r", .whole)]).save "u" (.vfail "boom") .FAILURE)
    (Storage.empty, [])).1

/-- A storage with one successfully saved task. -/
def sSaved : Storage :=
  (exD ((Storage.empty.addTask "u" "t").save "u" (.vint 7) .SUCCESS)
    (Storage.empty, [])).1

/-! ## Theorems

### Storage: fetch refines its specification -/

theorem fetchLoop_eq_firstValue (s : Storage) (name : String)
    (entries : List (String × Index)) :
    fetchLoop s name entries =
      match firstValue s name entries with
      | some v => .ok v
      | none => .error (.notFound ("Unable to find result " ++ name)) := by
  induction entries with
  | nil => rfl
  | cons e rest ih =>
    obtain ⟨uuid, index⟩ := e
    rw [fetchLoop, firstValue]
    unfold entryValue Storage.get
    cases h : s.find uuid with
    | none => simpa using ih
    | some td =>
      by_cases hst : td.state ∈ STATES_WITH_RESULTS
      · cases hi : itemFromResult (td.results.getD .vnone) index name with
        | ok v => simp [hst, hi]
        | error err => simpa [hst, hi] using ih
      · simpa [hst] using ih

theorem fetch_eq_fetchSpec (s : Storage) (name : String) :
    s.fetch name = fetchSpec s name := by
  unfold Storage.fetch fetchSpec
  cases h : alGet s.reverseMapping name with
  | none => rfl
  | some entries => simpa using fetchLoop_eq_firstValue s name entries

theorem firstValue_append_none (s : Storage) (name : String)
    (pre l : List (String × Index))
    (hpre : ∀ e ∈ pre, entryValue s name e = none) :
    firstValue s name (pre ++ l) = firstValue s name l := by
  induction pre with
  | nil => rfl
  | cons e rest ih =>
    rw [List.cons_append, firstValue, hpre e (List.mem_cons_self e rest)]
    exact ih (fun e' he' => hpre e' (List.mem_cons_of_mem e he'))

/-- C4: `fetch(name)` returns the value extracted from the
earliest-registered `(uuid, index)` entry in the reverse mapping for
`name` whose task is currently in a results-bearing state and whose
index resolves against that task's result; if `name` is not mapped, or
every entry fails to yield a value, it raises not-found (first
conjunct: `fetch` equals the spec-side `fetchSpec`).  In particular,
after `inject({x: 1})` then `inject({x: 2})`, `fetch(x) = 1`, and after
resetting the first injector's uuid, `fetch(x) = 2`. -/
theorem C4_fetch_earliest_resolvable :
    (∀ (s : Storage) (name : String), s.fetch name = fetchSpec s name) ∧
    (∃ s1 s2 s3,
      Storage.empty.inject "u1" [("x", .vint 1)] = .ok s1 ∧
      s1.inject "u2" [("x", .vint 2)] = .ok s2 ∧
      s2.fetch "x" = .ok (.vint 1) ∧
      s2.reset "u1" = .ok s3 ∧
      s3.fetch "x" = .ok (.vint 2)) :=
  ⟨fetch_eq_fetchSpec, ⟨_, _, _, rfl, rfl, rfl, rfl, rfl⟩⟩

/-- C5: for a uuid known to the Storage, `get(uuid)` returns the task's
results exactly when the task's state is in
`{SUCCESS, REVERTING, FAILURE}`, and raises not-found otherwise. -/
theorem C5_get_state_coupling (s : Storage) (uuid : String)
    (td : TaskDetail) (h : s.find uuid = some td) :
    ((∃ v, s.get uuid = .ok v) ↔ td.state ∈ STATES_WITH_RESULTS) ∧
    (td.state ∈ STATES_WITH_RESULTS →
      s.get uuid = .ok (td.results.getD .vnone)) ∧
    (td.state ∉ STATES_WITH_RESULTS →
      s.get uuid =
        .error (.notFound ("Result for task " ++ uuid ++ " is not known"))) := by
  by_cases hst : td.state ∈ STATES_WITH_RESULTS
  · refine ⟨⟨fun _ => hst, fun _ => ⟨td.results.getD .vnone, ?_⟩⟩,
      fun _ => ?_, fun hc => absurd hst hc⟩ <;>
    simp [Storage.get, h, hst]
  · refine ⟨⟨fun hv => ?_, fun hc => absurd hc hst⟩, fun hc => absurd hc hst,
      fun _ => ?_⟩
    · obtain ⟨v, hv⟩ := hv
      simp [Storage.get, h, hst] at hv
    · simp [Storage.get, h, hst]

theorem C5_get_state_coupling_witness :
    (∃ v, sSaved.get "u" = .ok v) ∧ sSaved.get "u" = .ok (.vint 7) := by
  have h := C5_get_state_coupling sSaved "u" ⟨"u", "t", .SUCCESS, some (.vint 7)⟩ rfl
  exact ⟨h.1.mpr (by decide), h.2.1 (by decide)⟩

/-- C7: for data that is not a `Failure`, `save(uuid, data, state)`
stores the data and sets the state unconditionally, returning only the
warning names from the completeness check (never raising for a failed
extraction); in scenario 6, saving `[42]` against mapping
`a → 0, b → 5` succeeds with a warning for `b`, `fetch(a) = 42`, and
`fetch(b)` raises not-found. -/
theorem C7_save_incomplete_warns (s : Storage) (uuid : String)
    (td : TaskDetail) (data : Value) (st : TState)
    (h : s.find uuid = some td) (hf : data.isFailure = false) :
    (s.save uuid data st = .ok
      ({ s with flowdetail := replaceFirst s.flowdetail uuid { td with state := st, results := some data } },
        s.checkAllResultsProvided uuid data)) ∧
    (∃ s', sMapped.save "u" (.vlist [.vint 42]) .SUCCESS = .ok (s', ["b"]) ∧
      s'.fetch "a" = .ok (.vint 42) ∧
      s'.fetch "b" = .error (.notFound "Unable to find result b")) := by
  constructor
  · unfold Storage.save
    simp [h, hf]
  · exact ⟨_, rfl, rfl, rfl⟩

theorem C7_save_incomplete_warns_witness :
    ∃ s', sMapped.save "u" (.vlist [.vint 42]) .SUCCESS = .ok (s', ["b"]) ∧
      s'.fetch "a" = .ok (.vint 42) := by
  obtain ⟨s', h1, h2, h3⟩ :=
    (C7_save_incomplete_warns sMapped "u" ⟨"u", "t", .PENDING, none⟩
      (.vlist [.vint 42]) .SUCCESS rfl rfl).2
  exact ⟨s', h1, h2⟩

/-- C10: when the earliest resolvable reverse-mapping entry for a name
has a null index and refers to a task in `FAILURE` state whose saved
results value is a `Failure` wrapper, `fetch(name)` returns that
`Failure` wrapper as an ordinary value instead of raising. -/
theorem C10_failure_result_flows (s : Storage) (name uuid msg : String)
    (td : TaskDetail) (pre rest : List (String × Index))
    (hm : alGet s.reverseMapping name = some (pre ++ (uuid, Index.whole) :: rest))
    (hpre : ∀ e ∈ pre, entryValue s name e = none)
    (hfind : s.find uuid = some td)
    (hstate : td.state = .FAILURE)
    (hres : td.results = some (.vfail msg)) :
    s.fetch name = .ok (.vfail msg) := by
  have he : entryValue s name (uuid, Index.whole) = some (.vfail msg) := by
    simp [entryValue, hfind, hstate, hres, STATES_WITH_RESULTS, itemFromResult]
  have hfv : firstValue s name (pre ++ (uuid, Index.whole) :: rest) =
      some (.vfail msg) := by
    rw [firstValue_append_none s name pre _ hpre, firstValue, he]
  rw [fetch_eq_fetchSpec]
  simp [fetchSpec, hm, hfv]

theorem C10_failure_result_flows_witness :
    sFailed.fetch "r" = .ok (.vfail "boom") :=
  C10_failure_result_flows sFailed "r" "u" "boom"
    ⟨"u", "t", .FAILURE, some (.vfail "boom")⟩ [] []
    rfl (fun e he => absurd he (List.not_mem_nil e)) rfl rfl rfl

/-! ### Storage: state/result coupling (C6) -/

theorem all_replaceFirst (l : List TaskDetail) (uuid : String)
    (td' : TaskDetail) (h : l.all resultsBound = true)
    (h' : resultsBound td' = true) :
    (replaceFirst l uuid td').all resultsBound = true := by
  induction l with
  | nil => rfl
  | cons td rest ih =>
    rw [List.all_cons, Bool.and_eq_true] at h
    unfold replaceFirst
    by_cases htd : td.uuid = uuid
    · simp [htd, List.all_cons, h', h.2]
    · simp [htd, List.all_cons, h.1, ih h.2]

theorem resultsInv_addTask (s : Storage) (u n : String)
    (h : ResultsInv s = true) : ResultsInv (s.addTask u n) = true := by
  unfold ResultsInv Storage.addTask
  rw [List.all_append]
  unfold ResultsInv at h
  simp [h, resultsBound, STATES_WITH_RESULTS]

theorem resultsInv_save (s : Storage) (uuid : String) (data : Value)
    (st : TState) (s' : Storage) (w : List String)
    (hok : s.save uuid data st = .ok (s', w))
    (h : ResultsInv s = true) : ResultsInv s' = true := by
  unfold Storage.save at hok
  cases hfind : s.find uuid with
  | none => rw [hfind] at hok; exact absurd hok (by simp)
  | some td =>
    rw [hfind] at hok
    simp only [Except.ok.injEq, Prod.mk.injEq] at hok
    rw [← hok.1]
    exact all_replaceFirst _ _ _ h (by simp [resultsBound])

theorem resultsInv_setTaskState (s : Storage) (u : String) (st : TState)
    (s' : Storage) (hok : s.setTaskState u st = .ok s')
    (hb : STATES_WITH_RESULTS.contains st = false)
    (h : ResultsInv s = true) : ResultsInv s' = true := by
  unfold Storage.setTaskState at hok
  cases hfind : s.find u with
  | none => rw [hfind] at hok; exact absurd hok (by simp)
  | some td =>
    rw [hfind] at hok
    simp only [Except.ok.injEq] at hok
    rw [← hok]
    refine all_replaceFirst _ _ _ h ?_
    have hb' : st ∉ STATES_WITH_RESULTS := by simpa using hb
    simp [resultsBound, hb']

theorem resultsInv_reset (s : Storage) (u : String) (st : TState)
    (s' : Storage) (hok : s.reset u st = .ok s')
    (hb : STATES_WITH_RESULTS.contains st = false)
    (h : ResultsInv s = true) : ResultsInv s' = true := by
  unfold Storage.reset at hok
  cases hfind : s.find u with
  | none => rw [hfind] at hok; exact absurd hok (by simp)
  | some td =>
    rw [hfind] at hok
    simp only [Except.ok.injEq] at hok
    rw [← hok]
    refine all_replaceFirst _ _ _ h ?_
    have hb' : st ∉ STATES_WITH_RESULTS := by simpa using hb
    simp [resultsBound, hb']

theorem resultsInv_inject (s : Storage) (u : String)
    (pairs : List (String × Value)) (s' : Storage)
    (hok : s.inject u pairs = .ok s')
    (h : ResultsInv s = true) : ResultsInv s' = true := by
  unfold Storage.inject at hok
  dsimp only at hok
  have h1 := resultsInv_addTask s u injectorName h
  cases hsave : (s.addTask u injectorName).save u (.vmap pairs) .SUCCESS with
  | error e => rw [hsave] at hok; exact absurd hok (by simp)
  | ok pr =>
    obtain ⟨s2, w2⟩ := pr
    rw [hsave] at hok
    simp only [Except.ok.injEq] at hok
    rw [← hok]
    have h2 := resultsInv_save _ u (.vmap pairs) .SUCCESS s2 w2 hsave h1
    simpa [ResultsInv] using h2

theorem resultsInv_applySOp (s : Storage) (op : SOp)
    (h : ResultsInv s = true) (hb : benignSOp op = true) :
    ResultsInv (applySOp s op) = true := by
  cases op with
  | addTask u n => exact resultsInv_addTask s u n h
  | setTaskState u st =>
    simp only [applySOp]
    cases hok : s.setTaskState u st with
    | error e => exact h
    | ok s' =>
      exact resultsInv_setTaskState s u st s' hok (by simpa [benignSOp] using hb) h
  | save u data st =>
    simp only [applySOp]
    cases hok : s.save u data st with
    | error e => exact h
    | ok pr =>
      obtain ⟨s', w⟩ := pr
      exact resultsInv_save s u data st s' w hok h
  | reset u st =>
    simp only [applySOp]
    cases hok : s.reset u st with
    | error e => exact h
    | ok s' =>
      exact resultsInv_reset s u st s' hok (by simpa [benignSOp] using hb) h
  | inject u pairs =>
    simp only [applySOp]
    cases hok : s.inject u pairs with
    | error e => exact h
    | ok s' => exact resultsInv_inject s u pairs s' hok h
  | setResultMapping u m =>
    simp only [applySOp]
    unfold Storage.setResultMapping
    by_cases hm : m.isEmpty <;> simp [hm] <;> simpa [ResultsInv] using h

theorem resultsInv_foldl (ops : List SOp) :
    ∀ s : Storage, ResultsInv s = true →
      (∀ op ∈ ops, benignSOp op = true) →
      ResultsInv (ops.foldl applySOp s) = true := by
  induction ops with
  | nil => exact fun s h _ => h
  | cons op rest ih =>
    intro s h hb
    rw [List.foldl_cons]
    exact ih _ (resultsInv_applySOp s op h (hb op (List.mem_cons_self op rest)))
      (fun op' hop' => hb op' (List.mem_cons_of_mem op hop'))

/-- C6 as stated is false on the code: `set_task_state` may install a
results-bearing state while `results` was never assigned. -/
theorem C6_counterexample :
    ResultsInv (runSOps [.addTask "u" "t", .setTaskState "u" .SUCCESS]) = false ∧
    (runSOps [.addTask "u" "t", .setTaskState "u" .SUCCESS]).find "u" =
      some ⟨"u", "t", .SUCCESS, none⟩ :=
  ⟨rfl, rfl⟩

/-- C6 (amended): for every sequence of Storage operations in which
`set_task_state` and `reset` are only given states outside
`{SUCCESS, REVERTING, FAILURE}`, every Task Detail whose state is in
that set has its results field assigned (possibly to a `Failure`). -/
theorem C6_state_result_coupling (ops : List SOp)
    (hb : ∀ op ∈ ops, benignSOp op = true) :
    ResultsInv (runSOps ops) = true :=
  resultsInv_foldl ops Storage.empty rfl hb

theorem C6_state_result_coupling_witness :
    ResultsInv (runSOps [.addTask "u" "t", .save "u" (.vint 1) .SUCCESS,
      .reset "u" .PENDING]) = true :=
  C6_state_result_coupling _ (by decide)

/-! ### Graph: basic lemmas -/

theorem addNode_edges (g : Graph) (u : Item) :
    (g.addNode u).edges = g.edges := by
  unfold Graph.addNode
  split <;> rfl

theorem addNode_of_mem (g : Graph) (u : Item) (h : u ∈ g.nodes) :
    g.addNode u = g := by
  have hc : g.nodes.contains u = true := by simpa using h
  unfold Graph.addNode Graph.hasNode
  rw [if_pos hc]

theorem mem_addNode (g : Graph) (u n : Item) :
    n ∈ (g.addNode u).nodes ↔ n ∈ g.nodes ∨ n = u := by
  by_cases h : u ∈ g.nodes
  · rw [addNode_of_mem g u h]
    constructor
    · exact Or.inl
    · rintro (hn | rfl)
      · exact hn
      · exact h
  · have hc : g.nodes.contains u = false := by simpa using h
    unfold Graph.addNode Graph.hasNode
    rw [if_neg (by simpa using h)]
    simp [List.mem_append]

theorem WF_addNode (g : Graph) (u : Item) (h : WF g) : WF (g.addNode u) := by
  intro e he
  rw [addNode_edges] at he
  exact ⟨(mem_addNode g u e.1).mpr (Or.inl (h e he).1),
    (mem_addNode g u e.2).mpr (Or.inl (h e he).2)⟩

theorem addEdge_of_has (g : Graph) (u v : Item) (hu : g.hasNode u = true)
    (hv : g.hasNode v = true) :
    (g.addEdge u v).nodes = g.nodes ∧
    ((g.addEdge u v).edges = g.edges ∨
      (g.addEdge u v).edges = g.edges ++ [(u, v)]) := by
  have hu' : u ∈ g.nodes := by simpa [Graph.hasNode] using hu
  have hv' : v ∈ g.nodes := by simpa [Graph.hasNode] using hv
  by_cases he : g.hasEdge u v = true
  · have hg : g.addEdge u v = g := by
      unfold Graph.addEdge
      rw [addNode_of_mem g u hu', addNode_of_mem g v hv']
      simp [he]
    rw [hg]
    exact ⟨rfl, Or.inl rfl⟩
  · have hg : g.addEdge u v = { g with edges := g.edges ++ [(u, v)] } := by
      unfold Graph.addEdge
      rw [addNode_of_mem g u hu', addNode_of_mem g v hv']
      simp [he]
    rw [hg]
    exact ⟨rfl, Or.inr rfl⟩

theorem WF_removeNodesFrom (g : Graph) (items : List Item) (h : WF g) :
    WF (g.removeNodesFrom items) := by
  intro e he
  unfold Graph.removeNodesFrom at he ⊢
  rw [List.mem_filter] at he
  obtain ⟨he', hunt⟩ := he
  unfold edgeUntouched at hunt
  rw [Bool.and_eq_true] at hunt
  constructor
  · rw [List.mem_filter]
    exact ⟨(h e he').1, hunt.1⟩
  · rw [List.mem_filter]
    exact ⟨(h e he').2, hunt.2⟩

/-! ### Graph: acyclicity notions -/

theorem ranked_acyclic (g : Graph) (h : Ranked g) : Acyclic g := by
  obtain ⟨rank, hrank⟩ := h
  intro v hcyc
  have hmono : ∀ a b, Relation.TransGen (EdgeStep g) a b → rank a < rank b := by
    intro a b hab
    induction hab with
    | single h1 => exact hrank _ h1
    | tail _ h2 ih => exact lt_trans ih (hrank _ h2)
  exact absurd (hmono v v hcyc) (lt_irrefl _)

theorem acyclic_mono (g g' : Graph) (hsub : ∀ x ∈ g'.edges, x ∈ g.edges)
    (h : Acyclic g) : Acyclic g' := by
  intro v hcyc
  exact h v (hcyc.mono (fun a b hab => hsub (a, b) hab))

theorem acyclic_of_edges_eq (g g' : Graph) (he : g'.edges = g.edges)
    (h : Acyclic g) : Acyclic g' :=
  acyclic_mono g g' (fun _ hx => he ▸ hx) h

theorem acyclic_empty : Acyclic Graph.empty :=
  ranked_acyclic _ ⟨fun _ => 0, fun e he => absurd he (List.not_mem_nil e)⟩

/-! ### Graph: soundness of the Kahn-style DAG check -/

theorem mem_sources (g : Graph) (v : Item) :
    v ∈ g.sources ↔ v ∈ g.nodes ∧ indeg g.edges v = 0 := by
  unfold Graph.sources
  rw [List.mem_filter]
  simp

theorem indeg_ne_zero_of_mem (edges : List (Item × Item)) (e : Item × Item)
    (he : e ∈ edges) : indeg edges e.2 ≠ 0 := by
  unfold indeg
  have : e ∈ edges.filter (fun x => x.2 = e.2) := by
    rw [List.mem_filter]
    simp [he]
  intro hlen
  rw [List.length_eq_zero] at hlen
  rw [hlen] at this
  exact absurd this (List.not_mem_nil e)

theorem isDagFuel_sound (fuel : Nat) :
    ∀ g : Graph, WF g → isDagFuel fuel g = true → Ranked g := by
  induction fuel with
  | zero =>
    intro g hwf hd
    unfold isDagFuel at hd
    rw [List.isEmpty_iff] at hd
    refine ⟨fun _ => 0, fun e he => ?_⟩
    have := (hwf e he).1
    rw [hd] at this
    exact absurd this (List.not_mem_nil e.1)
  | succ n ih =>
    intro g hwf hd
    unfold isDagFuel at hd
    by_cases hne : g.nodes.isEmpty
    · rw [List.isEmpty_iff] at hne
      refine ⟨fun _ => 0, fun e he => ?_⟩
      have := (hwf e he).1
      rw [hne] at this
      exact absurd this (List.not_mem_nil e.1)
    · rw [if_neg hne] at hd
      by_cases hse : g.sources.isEmpty
      · rw [if_pos hse] at hd
        exact absurd hd (by simp)
      · rw [if_neg hse] at hd
        obtain ⟨rank', hrank'⟩ :=
          ih (g.removeNodesFrom g.sources) (WF_removeNodesFrom g g.sources hwf) hd
        refine ⟨fun v => if g.sources.contains v then 0 else rank' v + 1,
          fun e he => ?_⟩
        have h2m : e.2 ∉ g.sources := by
          intro hc
          exact indeg_ne_zero_of_mem g.edges e he ((mem_sources g e.2).mp hc).2
        have h2c : g.sources.contains e.2 = false := by simpa using h2m
        by_cases h1m : e.1 ∈ g.sources
        · simp [h1m, h2m]
        · have h1c : g.sources.contains e.1 = false := by simpa using h1m
          have he' : e ∈ (g.removeNodesFrom g.sources).edges := by
            unfold Graph.removeNodesFrom
            rw [List.mem_filter]
            refine ⟨he, ?_⟩
            unfold edgeUntouched
            rw [h1c, h2c]
            rfl
          have := hrank' e he'
          simp only [h1c, h2c, Bool.false_eq_true, if_false]
          omega

theorem isDag_sound (g : Graph) (hwf : WF g) (hd : isDag g = true) :
    Acyclic g :=
  ranked_acyclic g (isDagFuel_sound g.nodes.length g hwf hd)

/-! ### Graph: link characterization -/

theorem linkOp_ok_cases (g : Graph) (u v : Item) (g' : Graph)
    (hok : linkOp g u v = .ok g') :
    g.hasNode u = true ∧ g.hasNode v = true ∧ g' = g.addEdge u v ∧
      isDag g' = true := by
  unfold linkOp at hok
  by_cases hu : g.hasNode u = true
  · by_cases hv : g.hasNode v = true
    · rw [if_neg (by simp [hu]), if_neg (by simp [hv])] at hok
      dsimp only at hok
      by_cases hd : isDag (g.addEdge u v) = true
      · rw [if_pos hd] at hok
        simp only [Except.ok.injEq] at hok
        exact ⟨hu, hv, hok.symm, hok ▸ hd⟩
      · rw [if_neg hd] at hok
        exact absurd hok (by simp)
    · rw [if_neg (by simp [hu]), if_pos hv] at hok
      exact absurd hok (by simp)
  · rw [if_pos hu] at hok
    exact absurd hok (by simp)

theorem linkOp_error_cases (g : Graph) (u v : Item) (e : Err) (gf : Graph)
    (herr : linkOp g u v = .error (e, gf)) :
    gf = g ∨ (g.hasNode u = true ∧ g.hasNode v = true ∧
      gf = (g.addEdge u v).removeEdge u v) := by
  unfold linkOp at herr
  by_cases hu : g.hasNode u = true
  · by_cases hv : g.hasNode v = true
    · rw [if_neg (by simp [hu]), if_neg (by simp [hv])] at herr
      dsimp only at herr
      by_cases hd : isDag (g.addEdge u v) = true
      · rw [if_pos hd] at herr
        exact absurd herr (by simp)
      · rw [if_neg hd] at herr
        simp only [Except.error.injEq, Prod.mk.injEq] at herr
        exact Or.inr ⟨hu, hv, herr.2.symm⟩
    · rw [if_neg (by simp [hu]), if_pos hv] at herr
      simp only [Except.error.injEq, Prod.mk.injEq] at herr
      exact Or.inl herr.2.symm
  · rw [if_pos hu] at herr
    simp only [Except.error.injEq, Prod.mk.injEq] at herr
    exact Or.inl herr.2.symm

theorem removeEdge_addEdge (g : Graph) (u v : Item)
    (hu : g.hasNode u = true) (hv : g.hasNode v = true) :
    ((g.addEdge u v).removeEdge u v).nodes = g.nodes ∧
    ((g.addEdge u v).removeEdge u v).edges =
      g.edges.filter (fun x => x ≠ (u, v)) := by
  obtain ⟨hn, he⟩ := addEdge_of_has g u v hu hv
  unfold Graph.removeEdge
  refine ⟨hn, ?_⟩
  rcases he with he | he
  · rw [he]
  · rw [he, List.filter_append]
    simp

theorem filter_filter_ne (l : List (Item × Item)) (uv : Item × Item)
    (q : Item × Item → Bool) (hq : q uv = false) :
    (l.filter (fun x => x ≠ uv)).filter q = l.filter q := by
  simp only [List.filter_filter]
  refine List.filter_congr ?_
  intro a _
  by_cases hax : a = uv
  · subst hax
    simp [hq]
  · simp [hax]

/-- Uniform effect of one `link` call: node set preserved, edges
preserved up to a filter that ignores the attempted edge, and
well-formedness plus acyclicity preserved (established outright on
success by the DAG check). -/
theorem linkOp_main (g : Graph) (u v : Item) (q : Item × Item → Bool)
    (hq : q (u, v) = false) :
    (∀ g', linkOp g u v = .ok g' →
      g'.nodes = g.nodes ∧ g'.edges.filter q = g.edges.filter q ∧
      (WF g → Acyclic g → WF g' ∧ Acyclic g')) ∧
    (∀ e gf, linkOp g u v = .error (e, gf) →
      gf.nodes = g.nodes ∧ gf.edges.filter q = g.edges.filter q ∧
      (WF g → Acyclic g → WF gf ∧ Acyclic gf)) := by
  constructor
  · intro g' hok
    obtain ⟨hu, hv, hg', hd⟩ := linkOp_ok_cases g u v g' hok
    obtain ⟨hn, he⟩ := addEdge_of_has g u v hu hv
    subst hg'
    have hu' : u ∈ g.nodes := by simpa [Graph.hasNode] using hu
    have hv' : v ∈ g.nodes := by simpa [Graph.hasNode] using hv
    refine ⟨hn, ?_, fun hwf _ => ?_⟩
    · rcases he with he | he
      · rw [he]
      · rw [he, List.filter_append]
        simp [hq]
    · have hwf' : WF (g.addEdge u v) := by
        intro x hx
        rw [hn]
        rcases he with he | he
        · rw [he] at hx
          exact hwf x hx
        · rw [he] at hx
          rcases List.mem_append.mp hx with hx | hx
          · exact hwf x hx
          · simp only [List.mem_singleton] at hx
            rw [hx]
            exact ⟨hu', hv'⟩
      exact ⟨hwf', isDag_sound _ hwf' hd⟩
  · intro e gf herr
    rcases linkOp_error_cases g u v e gf herr with rfl | ⟨hu, hv, hgf⟩
    · exact ⟨rfl, rfl, fun hwf hac => ⟨hwf, hac⟩⟩
    · obtain ⟨hn, he⟩ := removeEdge_addEdge g u v hu hv
      subst hgf
      refine ⟨hn, ?_, fun hwf hac => ?_⟩
      · rw [he, filter_filter_ne g.edges (u, v) q hq]
      · have hsub : ∀ x ∈ ((g.addEdge u v).removeEdge u v).edges, x ∈ g.edges := by
          intro x hx
          rw [he] at hx
          exact List.mem_of_mem_filter hx
        refine ⟨fun x hx => ?_, acyclic_mono g _ hsub hac⟩
        rw [hn]
        exact hwf x (hsub x hx)

/-! ### Graph: the loops inside Flow.add -/

theorem linkConsumersLoop_main (item : Item) (q : Item × Item → Bool)
    (hq : ∀ y, q (item, y) = false) (cs : List Item) :
    ∀ g : Graph,
    (∀ g', linkConsumersLoop item g cs = .ok g' →
      g'.nodes = g.nodes ∧ g'.edges.filter q = g.edges.filter q ∧
      (WF g → Acyclic g → WF g' ∧ Acyclic g')) ∧
    (∀ e gf, linkConsumersLoop item g cs = .error (e, gf) →
      gf.nodes = g.nodes ∧ gf.edges.filter q = g.edges.filter q ∧
      (WF g → Acyclic g → WF gf ∧ Acyclic gf)) := by
  induction cs with
  | nil =>
    intro g
    constructor
    · intro g' hok
      rw [linkConsumersLoop] at hok
      simp only [Except.ok.injEq] at hok
      subst hok
      exact ⟨rfl, rfl, fun hwf hac => ⟨hwf, hac⟩⟩
    · intro e gf herr
      rw [linkConsumersLoop] at herr
      exact absurd herr (by simp)
  | cons c rest ih =>
    intro g
    constructor
    · intro g' hok
      rw [linkConsumersLoop] at hok
      cases hl : linkOp g item c with
      | ok g1 =>
        rw [hl] at hok
        obtain ⟨hn1, hf1, hwa1⟩ := (linkOp_main g item c q (hq c)).1 g1 hl
        obtain ⟨hn2, hf2, hwa2⟩ := (ih g1).1 g' hok
        exact ⟨hn2.trans hn1, hf2.trans hf1,
          fun hwf hac => hwa2 (hwa1 hwf hac).1 (hwa1 hwf hac).2⟩
      | error eg =>
        rw [hl] at hok
        exact absurd hok (by simp)
    · intro e gf herr
      rw [linkConsumersLoop] at herr
      cases hl : linkOp g item c with
      | ok g1 =>
        rw [hl] at herr
        obtain ⟨hn1, hf1, hwa1⟩ := (linkOp_main g item c q (hq c)).1 g1 hl
        obtain ⟨hn2, hf2, hwa2⟩ := (ih g1).2 e gf herr
        exact ⟨hn2.trans hn1, hf2.trans hf1,
          fun hwf hac => hwa2 (hwa1 hwf hac).1 (hwa1 hwf hac).2⟩
      | error eg =>
        rw [hl] at herr
        simp only [Except.error.injEq] at herr
        subst herr
        exact (linkOp_main g item c q (hq c)).2 e gf hl

theorem linkRequiresLoop_main (p : PMap) (item : Item) (q : Item × Item → Bool)
    (hq : ∀ x, q (x, item) = false) (vs : List String) :
    ∀ g : Graph,
    (∀ g', linkRequiresLoop p item g vs = .ok g' →
      g'.nodes = g.nodes ∧ g'.edges.filter q = g.edges.filter q ∧
      (WF g → Acyclic g → WF g' ∧ Acyclic g')) ∧
    (∀ e gf, linkRequiresLoop p item g vs = .error (e, gf) →
      gf.nodes = g.nodes ∧ gf.edges.filter q = g.edges.filter q ∧
      (WF g → Acyclic g → WF gf ∧ Acyclic gf)) := by
  induction vs with
  | nil =>
    intro g
    constructor
    · intro g' hok
      rw [linkRequiresLoop] at hok
      simp only [Except.ok.injEq] at hok
      subst hok
      exact ⟨rfl, rfl, fun hwf hac => ⟨hwf, hac⟩⟩
    · intro e gf herr
      rw [linkRequiresLoop] at herr
      exact absurd herr (by simp)
  | cons v rest ih =>
    intro g
    constructor
    · intro g' hok
      rw [linkRequiresLoop] at hok
      cases hp : p v with
      | some producer =>
        rw [hp] at hok
        replace hok : (match linkOp g producer item with
          | .ok g2 => linkRequiresLoop p item g2 rest
          | .error eg => .error eg) = .ok g' := hok
        cases hl : linkOp g producer item with
        | ok g1 =>
          rw [hl] at hok
          obtain ⟨hn1, hf1, hwa1⟩ :=
            (linkOp_main g producer item q (hq producer)).1 g1 hl
          obtain ⟨hn2, hf2, hwa2⟩ := (ih g1).1 g' hok
          exact ⟨hn2.trans hn1, hf2.trans hf1,
            fun hwf hac => hwa2 (hwa1 hwf hac).1 (hwa1 hwf hac).2⟩
        | error eg =>
          rw [hl] at hok
          exact absurd hok (by simp)
      | none =>
        rw [hp] at hok
        exact (ih g).1 g' hok
    · intro e gf herr
      rw [linkRequiresLoop] at herr
      cases hp : p v with
      | some producer =>
        rw [hp] at herr
        replace herr : (match linkOp g producer item with
          | .ok g2 => linkRequiresLoop p item g2 rest
          | .error eg => .error eg) = .error (e, gf) := herr
        cases hl : linkOp g producer item with
        | ok g1 =>
          rw [hl] at herr
          obtain ⟨hn1, hf1, hwa1⟩ :=
            (linkOp_main g producer item q (hq producer)).1 g1 hl
          obtain ⟨hn2, hf2, hwa2⟩ := (ih g1).2 e gf herr
          exact ⟨hn2.trans hn1, hf2.trans hf1,
            fun hwf hac => hwa2 (hwa1 hwf hac).1 (hwa1 hwf hac).2⟩
        | error eg =>
          rw [hl] at herr
          simp only [Except.error.injEq] at herr
          subst herr
          exact (linkOp_main g producer item q (hq producer)).2 e gf hl
      | none =>
        rw [hp] at herr
        exact (ih g).2 e gf herr

theorem linkProvidesLoop_main (r : RMap) (item : Item) (q : Item × Item → Bool)
    (hq : ∀ y, q (item, y) = false) (vs : List String) :
    ∀ g : Graph,
    (∀ g', linkProvidesLoop r item g vs = .ok g' →
      g'.nodes = g.nodes ∧ g'.edges.filter q = g.edges.filter q ∧
      (WF g → Acyclic g → WF g' ∧ Acyclic g')) ∧
    (∀ e gf, linkProvidesLoop r item g vs = .error (e, gf) →
      gf.nodes = g.nodes ∧ gf.edges.filter q = g.edges.filter q ∧
      (WF g → Acyclic g → WF gf ∧ Acyclic gf)) := by
  induction vs with
  | nil =>
    intro g
    constructor
    · intro g' hok
      rw [linkProvidesLoop] at hok
      simp only [Except.ok.injEq] at hok
      subst hok
      exact ⟨rfl, rfl, fun hwf hac => ⟨hwf, hac⟩⟩
    · intro e gf herr
      rw [linkProvidesLoop] at herr
      exact absurd herr (by simp)
  | cons v rest ih =>
    intro g
    constructor
    · intro g' hok
      rw [linkProvidesLoop] at hok
      cases hc : linkConsumersLoop item g (r v) with
      | ok g1 =>
        rw [hc] at hok
        obtain ⟨hn1, hf1, hwa1⟩ := (linkConsumersLoop_main item q hq (r v) g).1 g1 hc
        obtain ⟨hn2, hf2, hwa2⟩ := (ih g1).1 g' hok
        exact ⟨hn2.trans hn1, hf2.trans hf1,
          fun hwf hac => hwa2 (hwa1 hwf hac).1 (hwa1 hwf hac).2⟩
      | error eg =>
        rw [hc] at hok
        exact absurd hok (by simp)
    · intro e gf herr
      rw [linkProvidesLoop] at herr
      cases hc : linkConsumersLoop item g (r v) with
      | ok g1 =>
        rw [hc] at herr
        obtain ⟨hn1, hf1, hwa1⟩ := (linkConsumersLoop_main item q hq (r v) g).1 g1 hc
        obtain ⟨hn2, hf2, hwa2⟩ := (ih g1).2 e gf herr
        exact ⟨hn2.trans hn1, hf2.trans hf1,
          fun hwf hac => hwa2 (hwa1 hwf hac).1 (hwa1 hwf hac).2⟩
      | error eg =>
        rw [hc] at herr
        simp only [Except.error.injEq] at herr
        subst herr
        exact (linkConsumersLoop_main item q hq (r v) g).2 e gf hc

/-! ### Graph: the duplicate-producer check and the producer map -/

theorem recordProvides_ok (item : Item) (vs : List String) :
    ∀ p p1 : PMap, recordProvides item p vs = .ok p1 →
      (∀ v ∈ vs, p v = none) ∧
      (∀ s ∈ vs, p1 s = some item) ∧
      (∀ s, s ∉ vs → p1 s = p s) := by
  induction vs with
  | nil =>
    intro p p1 h
    rw [recordProvides] at h
    simp only [Except.ok.injEq] at h
    subst h
    exact ⟨fun v hv => absurd hv (List.not_mem_nil v),
      fun s hs => absurd hs (List.not_mem_nil s), fun s _ => rfl⟩
  | cons v rest ih =>
    intro p p1 h
    rw [recordProvides] at h
    cases hp : p v with
    | some other =>
      rw [hp] at h
      exact absurd h (by simp)
    | none =>
      rw [hp] at h
      replace h : recordProvides item
          (fun s => if s = v then some item else p s) rest = .ok p1 := h
      obtain ⟨h1, h2, h3⟩ := ih _ p1 h
      refine ⟨?_, ?_, ?_⟩
      · intro v' hv'
        rcases List.mem_cons.mp hv' with rfl | hv'
        · exact hp
        · have hrec := h1 v' hv'
          by_cases hveq : v' = v
          · subst hveq
            exact hp
          · simpa [hveq] using hrec
      · intro s hs
        rcases List.mem_cons.mp hs with rfl | hs
        · by_cases hsr : s ∈ rest
          · exact h2 s hsr
          · rw [h3 s hsr]
            simp
        · exact h2 s hs
      · intro s hs
        have hs1 : s ≠ v := fun hh => hs (List.mem_cons.mpr (Or.inl hh))
        have hs2 : s ∉ rest := fun hh => hs (List.mem_cons_of_mem v hh)
        rw [h3 s hs2]
        simp [hs1]

/-- Extending a consistent producer map over the duplicate-producer
check stays consistent on the grown node list. -/
theorem MC_extend (nodes l' : List Item) (p p1 : PMap) (item : Item)
    (hl' : ∀ n, n ∈ l' ↔ n ∈ nodes ∨ n = item)
    (hrp : recordProvides item p item.provides = .ok p1)
    (hmc : MC nodes p) : MC l' p1 := by
  obtain ⟨hdom, hin, hout⟩ := recordProvides_ok item item.provides p p1 hrp
  obtain ⟨hmc1, hmc2⟩ := hmc
  constructor
  · intro s n h
    by_cases hc : s ∈ item.provides
    · rw [hin s hc] at h
      injection h with h
      subst h
      exact ⟨(hl' _).mpr (Or.inr rfl), by simpa using hc⟩
    · rw [hout s hc] at h
      obtain ⟨hn, hps⟩ := hmc1 s n h
      exact ⟨(hl' n).mpr (Or.inl hn), hps⟩
  · intro n hn s hs
    rcases (hl' n).mp hn with hn' | rfl
    · by_cases hc : s ∈ item.provides
      · have h1 := hmc2 n hn' s hs
        rw [hdom s hc] at h1
        exact absurd h1 (by simp)
      · rw [hout s hc]
        exact hmc2 n hn' s hs
    · exact hin s (by simpa using hs)

theorem MC_uniqueProviderL (nodes : List Item) (p : PMap) (hmc : MC nodes p) :
    UniqueProviderL nodes := by
  intro a ha b hb s hsa hsb
  have h1 := hmc.2 a ha s hsa
  have h2 := hmc.2 b hb s hsb
  rw [h1] at h2
  exact Option.some.inj h2

theorem UP_of_nodes_subset (g g' : Graph)
    (hsub : ∀ n ∈ g'.nodes, n ∈ g.nodes) (hup : UniqueProvider g) :
    UniqueProvider g' :=
  fun a ha b hb s hsa hsb => hup a (hsub a ha) b (hsub b hb) s hsa hsb

/-! ### Graph: the pre-scan of Flow.add -/

theorem MC_nil : MC [] (fun _ => none) :=
  ⟨fun s n h => absurd h (by simp), fun n hn => absurd hn (List.not_mem_nil n)⟩

theorem MC_recordAll (proc : List Item) (p : PMap) (n : Item)
    (hmc : MC proc p)
    (hshare : ∀ m ∈ proc, ∀ s, m.provides.contains s = true →
      n.provides.contains s = true → m = n) :
    MC (proc ++ [n]) (recordAll p n) := by
  obtain ⟨h1, h2⟩ := hmc
  constructor
  · intro s m h
    unfold recordAll at h
    by_cases hc : n.provides.contains s = true
    · rw [if_pos hc] at h
      injection h with h
      subst h
      exact ⟨List.mem_append.mpr (Or.inr (List.mem_singleton.mpr rfl)), hc⟩
    · rw [if_neg hc] at h
      obtain ⟨hm, hps⟩ := h1 s m h
      exact ⟨List.mem_append.mpr (Or.inl hm), hps⟩
  · intro m hm s hs
    unfold recordAll
    rcases List.mem_append.mp hm with hm | hm
    · by_cases hc : n.provides.contains s = true
      · rw [if_pos hc, hshare m hm s hs hc]
      · rw [if_neg hc]
        exact h2 m hm s hs
    · have hmn : m = n := List.mem_singleton.mp hm
      subst hmn
      rw [if_pos hs]

theorem scan_fold_MC (l : List Item) :
    ∀ (proc : List Item) (p : PMap) (r : RMap),
      MC proc p → UniqueProviderL (proc ++ l) →
      MC (proc ++ l) (l.foldl scanNode (p, r)).1 := by
  induction l with
  | nil =>
    intro proc p r hmc _
    simpa using hmc
  | cons n rest ih =>
    intro proc p r hmc hup
    have hn_mem : n ∈ proc ++ n :: rest :=
      List.mem_append.mpr (Or.inr (List.mem_cons_self n rest))
    have hshare : ∀ m ∈ proc, ∀ s, m.provides.contains s = true →
        n.provides.contains s = true → m = n := by
      intro m hm s hsm hsn
      exact hup m (List.mem_append.mpr (Or.inl hm)) n hn_mem s hsm hsn
    have heq : proc ++ n :: rest = (proc ++ [n]) ++ rest := by simp
    rw [List.foldl_cons, heq]
    exact ih (proc ++ [n]) (recordAll p n) (updateReqs r n)
      (MC_recordAll proc p n hmc hshare) (heq ▸ hup)

theorem scan_MC (g : Graph) (hup : UniqueProvider g) :
    MC g.nodes (g.nodes.foldl scanNode (fun _ => none, fun _ => [])).1 := by
  have h := scan_fold_MC g.nodes [] (fun _ => none) (fun _ => [])
    MC_nil (by simpa using hup)
  simpa using h

/-! ### Graph: one iteration of the item loop -/

theorem filter_addNode_untouched (g : Graph) (item : Item)
    (items : List Item) (hitem : item ∈ items) :
    ((g.addNode item).nodes).filter (nodeUntouched items) =
      g.nodes.filter (nodeUntouched items) := by
  by_cases h : item ∈ g.nodes
  · rw [addNode_of_mem g item h]
  · have hci : items.contains item = true := by simpa using hitem
    unfold Graph.addNode Graph.hasNode
    rw [if_neg (by simpa using h)]
    have hnu : nodeUntouched items item = false := by
      simp [nodeUntouched, hitem]
    simp [List.filter_append, List.filter_cons, hnu]

theorem processItem_main (items : List Item) (item : Item)
    (hitem : item ∈ items) (st : AddState) :
    (∀ st', processItem st item = .ok st' →
      st'.g.nodes = (st.g.addNode item).nodes ∧
      st'.g.edges.filter (edgeUntouched items) =
        st.g.edges.filter (edgeUntouched items) ∧
      (WF st.g → Acyclic st.g → WF st'.g ∧ Acyclic st'.g) ∧
      (MC st.g.nodes st.p → MC st'.g.nodes st'.p)) ∧
    (∀ e gf, processItem st item = .error (e, gf) →
      gf.nodes = (st.g.addNode item).nodes ∧
      gf.edges.filter (edgeUntouched items) =
        st.g.edges.filter (edgeUntouched items) ∧
      (WF st.g → Acyclic st.g → WF gf ∧ Acyclic gf)) := by
  have hci : items.contains item = true := by simpa using hitem
  have hqr : ∀ x, edgeUntouched items (x, item) = false := by
    intro x
    simp [edgeUntouched, hitem]
  have hql : ∀ y, edgeUntouched items (item, y) = false := by
    intro y
    simp [edgeUntouched, hitem]
  have hgn : (st.g.addNode item).edges = st.g.edges := addNode_edges st.g item
  have hwfn : WF st.g → WF (st.g.addNode item) := WF_addNode st.g item
  have hacn : Acyclic st.g → Acyclic (st.g.addNode item) :=
    acyclic_of_edges_eq st.g _ hgn
  constructor
  · intro st' hok
    unfold processItem at hok
    dsimp only at hok
    cases hrp : recordProvides item st.p item.provides with
    | error e0 =>
      rw [hrp] at hok
      exact absurd hok (by simp)
    | ok p1 =>
      rw [hrp] at hok
      replace hok : (match linkRequiresLoop p1 item (st.g.addNode item) item.requires with
        | .error eg => Except.error eg
        | .ok g2 =>
          match linkProvidesLoop (updateReqs st.r item) item g2 item.provides with
          | .error eg => Except.error eg
          | .ok g3 => Except.ok (⟨g3, p1, updateReqs st.r item⟩ : AddState)) = .ok st' := hok
      cases hlr : linkRequiresLoop p1 item (st.g.addNode item) item.requires with
      | error eg =>
        rw [hlr] at hok
        exact absurd hok (by simp)
      | ok g2 =>
        rw [hlr] at hok
        replace hok : (match linkProvidesLoop (updateReqs st.r item) item g2 item.provides with
          | .error eg => Except.error eg
          | .ok g3 => Except.ok (⟨g3, p1, updateReqs st.r item⟩ : AddState)) = .ok st' := hok
        cases hlp : linkProvidesLoop (updateReqs st.r item) item g2 item.provides with
        | error eg =>
          rw [hlp] at hok
          exact absurd hok (by simp)
        | ok g3 =>
          rw [hlp] at hok
          simp only [Except.ok.injEq] at hok
          subst hok
          obtain ⟨hn1, hf1, hwa1⟩ :=
            (linkRequiresLoop_main p1 item _ hqr item.requires (st.g.addNode item)).1 g2 hlr
          obtain ⟨hn2, hf2, hwa2⟩ :=
            (linkProvidesLoop_main (updateReqs st.r item) item _ hql item.provides g2).1 g3 hlp
          refine ⟨hn2.trans hn1, ?_, fun hwf hac => ?_, fun hmc => ?_⟩
          · rw [hf2, hf1, hgn]
          · obtain ⟨hwf1, hac1⟩ := hwa1 (hwfn hwf) (hacn hac)
            exact hwa2 hwf1 hac1
          · have hmc1 : MC (st.g.addNode item).nodes p1 :=
              MC_extend st.g.nodes (st.g.addNode item).nodes st.p p1 item
                (fun n => mem_addNode st.g item n) hrp hmc
            show MC g3.nodes p1
            rw [hn2.trans hn1]
            exact hmc1
  · intro e gf herr
    unfold processItem at herr
    dsimp only at herr
    cases hrp : recordProvides item st.p item.provides with
    | error e0 =>
      rw [hrp] at herr
      simp only [Except.error.injEq, Prod.mk.injEq] at herr
      rw [← herr.2]
      exact ⟨rfl, by rw [hgn], fun hwf hac => ⟨hwfn hwf, hacn hac⟩⟩
    | ok p1 =>
      rw [hrp] at herr
      replace herr : (match linkRequiresLoop p1 item (st.g.addNode item) item.requires with
        | .error eg => Except.error eg
        | .ok g2 =>
          match linkProvidesLoop (updateReqs st.r item) item g2 item.provides with
          | .error eg => Except.error eg
          | .ok g3 => Except.ok (⟨g3, p1, updateReqs st.r item⟩ : AddState)) =
            .error (e, gf) := herr
      cases hlr : linkRequiresLoop p1 item (st.g.addNode item) item.requires with
      | error eg =>
        rw [hlr] at herr
        simp only [Except.error.injEq] at herr
        subst herr
        obtain ⟨hn1, hf1, hwa1⟩ :=
          (linkRequiresLoop_main p1 item _ hqr item.requires (st.g.addNode item)).2 e gf hlr
        exact ⟨hn1, by rw [hf1, hgn], fun hwf hac => hwa1 (hwfn hwf) (hacn hac)⟩
      | ok g2 =>
        rw [hlr] at herr
        replace herr : (match linkProvidesLoop (updateReqs st.r item) item g2 item.provides with
          | .error eg => Except.error eg
          | .ok g3 => Except.ok (⟨g3, p1, updateReqs st.r item⟩ : AddState)) =
            .error (e, gf) := herr
        obtain ⟨hn1, hf1, hwa1⟩ :=
          (linkRequiresLoop_main p1 item _ hqr item.requires (st.g.addNode item)).1 g2 hlr
        cases hlp : linkProvidesLoop (updateReqs st.r item) item g2 item.provides with
        | error eg =>
          rw [hlp] at herr
          simp only [Except.error.injEq] at herr
          subst herr
          obtain ⟨hn2, hf2, hwa2⟩ :=
            (linkProvidesLoop_main (updateReqs st.r item) item _ hql item.provides g2).2 e gf hlp
          refine ⟨hn2.trans hn1, by rw [hf2, hf1, hgn], fun hwf hac => ?_⟩
          obtain ⟨hwf1, hac1⟩ := hwa1 (hwfn hwf) (hacn hac)
          exact hwa2 hwf1 hac1
        | ok g3 =>
          rw [hlp] at herr
          exact absurd herr (by simp)

/-! ### Graph: the whole item loop and Flow.add -/

theorem processItems_main (items : List Item) (todo : List Item) :
    ∀ st : AddState, (∀ it ∈ todo, it ∈ items) →
    (∀ g', processItems st todo = .ok g' →
      g'.nodes.filter (nodeUntouched items) =
        st.g.nodes.filter (nodeUntouched items) ∧
      g'.edges.filter (edgeUntouched items) =
        st.g.edges.filter (edgeUntouched items) ∧
      (WF st.g → Acyclic st.g → MC st.g.nodes st.p →
        WF g' ∧ Acyclic g' ∧ ∃ p', MC g'.nodes p')) ∧
    (∀ e gf, processItems st todo = .error (e, gf) →
      gf.nodes.filter (nodeUntouched items) =
        st.g.nodes.filter (nodeUntouched items) ∧
      gf.edges.filter (edgeUntouched items) =
        st.g.edges.filter (edgeUntouched items) ∧
      (WF st.g → Acyclic st.g → WF gf ∧ Acyclic gf)) := by
  induction todo with
  | nil =>
    intro st _
    constructor
    · intro g' hok
      rw [processItems] at hok
      simp only [Except.ok.injEq] at hok
      subst hok
      exact ⟨rfl, rfl, fun hwf hac hmc => ⟨hwf, hac, st.p, hmc⟩⟩
    · intro e gf herr
      rw [processItems] at herr
      exact absurd herr (by simp)
  | cons item rest ih =>
    intro st hsub
    have hitem : item ∈ items := hsub item (List.mem_cons_self item rest)
    have hrest : ∀ it ∈ rest, it ∈ items :=
      fun it hit => hsub it (List.mem_cons_of_mem item hit)
    have hfn : ((st.g.addNode item).nodes).filter (nodeUntouched items) =
        st.g.nodes.filter (nodeUntouched items) :=
      filter_addNode_untouched st.g item items hitem
    constructor
    · intro g' hok
      rw [processItems] at hok
      cases hpi : processItem st item with
      | error eg =>
        rw [hpi] at hok
        exact absurd hok (by simp)
      | ok st1 =>
        rw [hpi] at hok
        obtain ⟨hn1, hf1, hwa1, hmc1⟩ :=
          (processItem_main items item hitem st).1 st1 hpi
        obtain ⟨hfn2, hfe2, hinv2⟩ := (ih st1 hrest).1 g' hok
        refine ⟨?_, ?_, ?_⟩
        · rw [hfn2, hn1, hfn]
        · rw [hfe2, hf1]
        · intro hwf hac hmc
          exact hinv2 (hwa1 hwf hac).1 (hwa1 hwf hac).2 (hmc1 hmc)
    · intro e gf herr
      rw [processItems] at herr
      cases hpi : processItem st item with
      | error eg =>
        rw [hpi] at herr
        simp only [Except.error.injEq] at herr
        subst herr
        obtain ⟨hn1, hf1, hwa1⟩ := (processItem_main items item hitem st).2 e gf hpi
        exact ⟨by rw [hn1, hfn], hf1, hwa1⟩
      | ok st1 =>
        rw [hpi] at herr
        obtain ⟨hn1, hf1, hwa1, _⟩ := (processItem_main items item hitem st).1 st1 hpi
        obtain ⟨hfn2, hfe2, hwa2⟩ := (ih st1 hrest).2 e gf herr
        exact ⟨by rw [hfn2, hn1, hfn], by rw [hfe2, hf1],
          fun hwf hac => hwa2 (hwa1 hwf hac).1 (hwa1 hwf hac).2⟩

theorem addOp_main (g : Graph) (items : List Item) :
    (∀ g', addOp g items = .ok g' →
      WF g → Acyclic g → UniqueProvider g →
      WF g' ∧ Acyclic g' ∧ UniqueProvider g') ∧
    (∀ e gf, addOp g items = .error (e, gf) →
      gf.nodes = g.nodes.filter (nodeUntouched items) ∧
      gf.edges = g.edges.filter (edgeUntouched items) ∧
      (WF g → Acyclic g → WF gf ∧ Acyclic gf)) := by
  constructor
  · intro g' hok hwf hac hup
    unfold addOp at hok
    dsimp only at hok
    cases hpi : processItems ⟨g, (g.nodes.foldl scanNode (fun _ => none, fun _ => [])).1,
        (g.nodes.foldl scanNode (fun _ => none, fun _ => [])).2⟩ items with
    | error eg =>
      rw [hpi] at hok
      obtain ⟨e1, gf1⟩ := eg
      exact absurd hok (by simp)
    | ok g1 =>
      rw [hpi] at hok
      simp only [Except.ok.injEq] at hok
      subst hok
      obtain ⟨_, _, hinv⟩ :=
        (processItems_main items items _ (fun it hit => hit)).1 g1 hpi
      obtain ⟨hwf', hac', p', hmc'⟩ := hinv hwf hac (scan_MC g hup)
      exact ⟨hwf', hac', MC_uniqueProviderL _ p' hmc'⟩
  · intro e gf herr
    unfold addOp at herr
    dsimp only at herr
    cases hpi : processItems ⟨g, (g.nodes.foldl scanNode (fun _ => none, fun _ => [])).1,
        (g.nodes.foldl scanNode (fun _ => none, fun _ => [])).2⟩ items with
    | ok g1 =>
      rw [hpi] at herr
      exact absurd herr (by simp)
    | error eg =>
      obtain ⟨e1, gf1⟩ := eg
      rw [hpi] at herr
      simp only [Except.error.injEq, Prod.mk.injEq] at herr
      obtain ⟨he1, hgf⟩ := herr
      subst he1
      obtain ⟨hfn, hfe, hwa⟩ :=
        (processItems_main items items _ (fun it hit => hit)).2 e1 gf1 hpi
      have hsub : ∀ x ∈ (gf1.removeNodesFrom items).edges, x ∈ gf1.edges := by
        intro x hx
        exact List.mem_of_mem_filter hx
      refine ⟨?_, ?_, fun hwf hac => ?_⟩
      · rw [← hgf]
        exact hfn
      · rw [← hgf]
        exact hfe
      · obtain ⟨hwf1, hac1⟩ := hwa hwf hac
        rw [← hgf]
        exact ⟨WF_removeNodesFrom gf1 items hwf1, acyclic_mono gf1 _ hsub hac1⟩

/-! ### Graph: the run invariant -/

theorem applyOp_inv (g : Graph) (op : Op)
    (h : WF g ∧ Acyclic g ∧ UniqueProvider g) :
    WF (applyOp g op) ∧ Acyclic (applyOp g op) ∧
      UniqueProvider (applyOp g op) := by
  obtain ⟨hwf, hac, hup⟩ := h
  cases op with
  | linkItems u v =>
    simp only [applyOp]
    cases hl : linkOp g u v with
    | ok g' =>
      obtain ⟨hn, _, hwa⟩ := (linkOp_main g u v (fun _ => false) rfl).1 g' hl
      obtain ⟨hwf', hac'⟩ := hwa hwf hac
      refine ⟨hwf', hac', ?_⟩
      unfold UniqueProvider
      rw [hn]
      exact hup
    | error eg =>
      obtain ⟨e, gf⟩ := eg
      obtain ⟨hn, _, hwa⟩ := (linkOp_main g u v (fun _ => false) rfl).2 e gf hl
      obtain ⟨hwf', hac'⟩ := hwa hwf hac
      refine ⟨hwf', hac', ?_⟩
      unfold UniqueProvider
      rw [hn]
      exact hup
  | addItems items =>
    simp only [applyOp]
    cases ha : addOp g items with
    | ok g' => exact (addOp_main g items).1 g' ha hwf hac hup
    | error eg =>
      obtain ⟨e, gf⟩ := eg
      obtain ⟨hn, _, hwa⟩ := (addOp_main g items).2 e gf ha
      obtain ⟨hwf', hac'⟩ := hwa hwf hac
      refine ⟨hwf', hac', ?_⟩
      refine UP_of_nodes_subset g gf ?_ hup
      intro n hngf
      rw [hn] at hngf
      exact List.mem_of_mem_filter hngf

theorem runOps_inv (ops : List Op) :
    WF (runOps ops) ∧ Acyclic (runOps ops) ∧ UniqueProvider (runOps ops) := by
  have aux : ∀ (l : List Op) (g : Graph),
      WF g ∧ Acyclic g ∧ UniqueProvider g →
      WF (l.foldl applyOp g) ∧ Acyclic (l.foldl applyOp g) ∧
        UniqueProvider (l.foldl applyOp g) := by
    intro l
    induction l with
    | nil => exact fun g h => h
    | cons op rest ih =>
      intro g h
      rw [List.foldl_cons]
      exact ih (applyOp g op) (applyOp_inv g op h)
  exact aux ops Graph.empty
    ⟨fun e he => absurd he (List.not_mem_nil e), acyclic_empty,
      fun a ha => absurd ha (List.not_mem_nil a)⟩

/-! ### Claim theorems for the graph flow -/

/-- C1: for every sequence of `add`/`link` calls on a fresh graph flow,
the graph is acyclic after every call — in particular after every call
that returned successfully (the graph after a raising call is its
rollback state, so this covers all intermediate graphs). -/
theorem C1_acyclicity (ops : List Op) : Acyclic (runOps ops) :=
  (runOps_inv ops).2.1

/-- C2: in every reachable graph-flow state no two nodes share a symbol
in `provides`; and in the literal scenario, `add(A); add(C)` with both
providing `x` raises a dependency error naming both producers and the
symbol, after which `C` is not in the graph. -/
theorem C2_unique_producer :
    (∀ ops : List Op, UniqueProvider (runOps ops)) ∧
    (∃ gf, addOp (runOps [Op.addItems [itemA]]) [itemC] =
      .error (.dependency ("C provides x but is already being provided by A"
        ++ " and duplicate producers are disallowed"), gf) ∧
      gf.nodes.contains itemC = false) :=
  ⟨fun ops => (runOps_inv ops).2.2, ⟨_, rfl, rfl⟩⟩

/-- C3 as stated is false on the code: when an item passed to `add` is
already a node of the graph, the rollback removes it, so after the
raising call the node set differs from its pre-call value
(`add(A); add(A)` raises and removes the pre-existing `A`). -/
theorem C3_rollback_counterexample :
    ∃ e gf, addOp (runOps [Op.addItems [itemA]]) [itemA] = .error (e, gf) ∧
      gf.nodes ≠ (runOps [Op.addItems [itemA]]).nodes :=
  ⟨_, _, rfl, by decide⟩

/-- C3 (amended): if `add(items…)` raises on a reachable graph flow,
the graph's node set afterwards equals its pre-call value minus the
items of the call, and its edge set equals the pre-call edges
restricted to the surviving nodes; in particular, when no item of the
call was already in the graph, node and edge sets equal their pre-call
values. -/
theorem C3_rollback_amended (ops : List Op) (items : List Item)
    (e : Err) (gf : Graph)
    (h : addOp (runOps ops) items = .error (e, gf)) :
    gf.nodes = (runOps ops).nodes.filter (nodeUntouched items) ∧
    gf.edges = (runOps ops).edges.filter (edgeUntouched items) ∧
    ((∀ it ∈ items, it ∉ (runOps ops).nodes) →
      gf.nodes = (runOps ops).nodes ∧ gf.edges = (runOps ops).edges) := by
  obtain ⟨hn, he, _⟩ := (addOp_main (runOps ops) items).2 e gf h
  refine ⟨hn, he, fun hfresh => ?_⟩
  have hwf : WF (runOps ops) := (runOps_inv ops).1
  constructor
  · rw [hn]
    refine List.filter_eq_self.mpr ?_
    intro n hni
    have : n ∉ items := fun hin => hfresh n hin hni
    simp [nodeUntouched, this]
  · rw [he]
    refine List.filter_eq_self.mpr ?_
    intro x hx
    have h1 : x.1 ∉ items := fun hin => hfresh x.1 hin (hwf x hx).1
    have h2 : x.2 ∉ items := fun hin => hfresh x.2 hin (hwf x hx).2
    simp [edgeUntouched, h1, h2]

theorem C3_rollback_amended_witness :
    ∃ e gf, addOp (runOps [Op.addItems [itemA]]) [itemC] = .error (e, gf) ∧
      gf.nodes = (runOps [Op.addItems [itemA]]).nodes ∧
      gf.edges = (runOps [Op.addItems [itemA]]).edges := by
  refine ⟨_, _, rfl, ?_⟩
  exact (C3_rollback_amended [Op.addItems [itemA]] [itemC] _ _ rfl).2.2 (by decide)

/-- C8: with A providing `x` and B requiring `x`, both `add(A, B)` and
`add(B, A)` on an empty flow succeed and produce exactly the single
edge A → B: insertion order of items within one `add` call does not
affect the resulting edge set. -/
theorem C8_add_order_independent :
    ∃ g1 g2, addOp Graph.empty [itemA, itemB] = .ok g1 ∧
      addOp Graph.empty [itemB, itemA] = .ok g2 ∧
      g1.edges = [(itemA, itemB)] ∧ g2.edges = [(itemA, itemB)] :=
  ⟨_, _, rfl, rfl, rfl, rfl⟩

/-- C9 as stated is false on the code: `link` with an absent endpoint
raises `ValueError` (the spec's *argument* error kind), not the
`NotFound` exception class. -/
theorem C9_link_counterexample :
    ∃ e gf, linkOp Graph.empty itemA itemB = .error (e, gf) ∧
      e.isNotFound = false :=
  ⟨_, _, rfl, rfl⟩

/-- C9 (amended): `link(u, v)` fails with an argument error
(`ValueError`) when either endpoint is absent from the graph, leaving
the graph unchanged. -/
theorem C9_link_missing_endpoint (g : Graph) (u v : Item)
    (h : g.hasNode u = false ∨ g.hasNode v = false) :
    ∃ m, linkOp g u v = .error (.valueError m, g) := by
  by_cases hu : g.hasNode u = true
  · have hv : g.hasNode v = false := by
      rcases h with h | h
      · rw [h] at hu
        exact absurd hu (by simp)
      · exact h
    refine ⟨"Item " ++ v.name ++ " not found to link to", ?_⟩
    unfold linkOp
    rw [if_neg (by simp [hu]), if_pos (by simp [hv])]
  · have hu' : g.hasNode u = false := by simpa using hu
    refine ⟨"Item " ++ u.name ++ " not found to link from", ?_⟩
    unfold linkOp
    rw [if_pos (by simp [hu'])]

theorem C9_link_missing_endpoint_witness :
    ∃ m, linkOp Graph.empty itemA itemB =
      .error (.valueError m, Graph.empty) :=
  C9_link_missing_endpoint Graph.empty itemA itemB (Or.inl rfl)

end Taskflow
